import Mathlib

/-!
Verification of the Smithery registry gateway (`src/main.py`) against its
natural-language specification.

The embedding is shallow: each Python function of `main.py` becomes a pure
Lean function over explicit inputs.  HTTP failure (`raise HTTPException`)
is modelled with `Except HTTPException`; the single outbound GET issued by
a forwarding handler is modelled as the `OutboundRequest` value the handler
passes to the HTTP client; the remote's answer is modelled as an explicit
`(status_code, text)` pair fed to the response-handling half of the handler.
Python strings are Lean `String`s (lists of unicode scalar values), bytes
are `List Nat` with entries below 256.
-/

/-- Model of `fastapi.HTTPException`: the status code and detail carried by
`raise HTTPException(status_code=..., detail=...)` in `main.py`. -/
structure HTTPException where
  status_code : Nat
  detail : String
deriving DecidableEq, Repr

/-- Base URL for the Smithery Registry API (`BASE_URL` in `main.py`). -/
def BASE_URL : String := "https://registry.smithery.ai"

/-- One left-to-right pass of Python's `str.replace("Bearer ", "")` as called
in `verify_token`: every non-overlapping occurrence of the 7-character
pattern `"Bearer "` is deleted, scanning left to right. -/
def replace_Bearer : List Char → List Char
  | 'B' :: 'e' :: 'a' :: 'r' :: 'e' :: 'r' :: ' ' :: rest => replace_Bearer rest
  | c :: cs => c :: replace_Bearer cs
  | [] => []

/-- Does the character list contain an occurrence of the substring
`"Bearer "`?  (Helper predicate for reasoning about `replace_Bearer`;
not part of the source.) -/
def has_Bearer : List Char → Bool
  | 'B' :: 'e' :: 'a' :: 'r' :: 'e' :: 'r' :: ' ' :: _ => true
  | _ :: cs => has_Bearer cs
  | [] => false

/-- Model of `verify_token` (`main.py` lines 68-76): reject a header that
does not start with `"Bearer "` (Python `str.startswith`), then delete every
occurrence of `"Bearer "` (Python `str.replace`), reject if the remainder is
empty, and otherwise return the remainder as the validated token.
The header is the function's argument; a request with no Authorization
header at all never reaches this function (FastAPI rejects it during
request validation, outside the code under `src/`). -/
def verify_token (authorization : String) : Except HTTPException String :=
  if "Bearer ".data.isPrefixOf authorization.data = false then
    .error ⟨401, "Invalid authorization header format"⟩
  else
    let token := String.mk (replace_Bearer authorization.data)
    if token = "" then .error ⟨401, "No token provided"⟩
    else .ok token

/-- A query-string parameter value as placed in the Python `params` dict in
`list_servers`: either a string (`q`) or an integer (`page`, `pageSize`). -/
inductive QueryVal where
  | s (v : String)
  | i (v : Int)
deriving DecidableEq, Repr

/-- The single outbound GET a forwarding handler performs, as the data the
handler passes to `httpx.AsyncClient.get`: target URL, query parameters and
headers. -/
structure OutboundRequest where
  url : String
  params : List (String × QueryVal)
  headers : List (String × String)
deriving DecidableEq, Repr

/-- Request-building half of `list_servers` (`main.py` lines 85-101): the
`params` dict receives `q`, `page` and `pageSize` only when the Python value
is truthy (`if q:` / `if page:` / `if page_size:`), i.e. a present non-empty
string for `q` and a non-zero integer for `page` and `page_size`; the
`headers` dict carries the validated token under `Authorization`, exactly as
returned by `verify_token` (no `Bearer ` is re-attached). -/
def list_servers_request (q : Option String) (page : Int) (page_size : Int)
    (authorization : String) : OutboundRequest :=
  { url := BASE_URL ++ "/servers"
    params :=
      (match q with
        | some v => if v ≠ "" then [("q", QueryVal.s v)] else []
        | none => []) ++
      (if page ≠ 0 then [("page", QueryVal.i page)] else []) ++
      (if page_size ≠ 0 then [("pageSize", QueryVal.i page_size)] else [])
    headers := [("Authorization", authorization)] }

/-- The `list_servers` endpoint up to its outbound call: FastAPI binds the
query parameters (`page: int = Query(1)`, `page_size: int = Query(10,
alias="pageSize")`, so an omitted `page`/`pageSize` defaults to 1/10, while
`q: Optional[str] = Query(None)` defaults to absent) and runs the
`verify_token` dependency; on success the handler issues the outbound
request described by `list_servers_request`. -/
def list_servers (q : Option String) (page : Option Int) (pageSize : Option Int)
    (authorization : String) : Except HTTPException OutboundRequest :=
  (verify_token authorization).map fun token =>
    list_servers_request q (page.getD 1) (pageSize.getD 10) token

/-- Request-building half of `get_server` (`main.py` lines 117-123): one
outbound GET to `BASE_URL/servers/{qualified_name}` with no query parameters
and the validated token under `Authorization`. -/
def get_server_request (qualified_name : String) (authorization : String) :
    OutboundRequest :=
  { url := BASE_URL ++ "/servers/" ++ qualified_name
    params := []
    headers := [("Authorization", authorization)] }

/-- The `get_server` endpoint up to its outbound call (path parameter plus
`verify_token` dependency). -/
def get_server (qualified_name : String) (authorization : String) :
    Except HTTPException OutboundRequest :=
  (verify_token authorization).map fun token =>
    get_server_request qualified_name token

/-- Response-handling half of `list_servers` (`main.py` lines 103-109): a
remote status other than 200 is re-raised as an `HTTPException` carrying the
remote status code and a detail embedding the remote body text verbatim; a
200 response is passed through (the model carries the raw body text; the
`response.json()` re-parsing and `response_model` shaping on the success
path are not needed by any claim). -/
def list_servers_response (status_code : Nat) (text : String) :
    Except HTTPException String :=
  if status_code ≠ 200 then
    .error ⟨status_code, "Smithery Registry API error: " ++ text⟩
  else .ok text

/-- Response-handling half of `get_server` (`main.py` lines 125-131),
textually identical to the one in `list_servers`. -/
def get_server_response (status_code : Nat) (text : String) :
    Except HTTPException String :=
  if status_code ≠ 200 then
    .error ⟨status_code, "Smithery Registry API error: " ++ text⟩
  else .ok text

/-- JSON values, the shape of the `config: Dict[str, Any]` payload after
FastAPI has parsed the request body.  Numbers are modelled as
arbitrary-precision integers (Python `int`); IEEE-754 floats are outside
the embedding.  Objects keep their members as an ordered association list,
matching the insertion order of a Python dict. -/
inductive Json where
  | null
  | bool (b : Bool)
  | num (n : Int)
  | str (s : String)
  | arr (items : List Json)
  | obj (members : List (String × Json))

/-- Lowercase hexadecimal digit, as produced by Python's `'\\u%04x'`
formatting inside `json.dumps(..., ensure_ascii=True)`. -/
def hexDigit (n : Nat) : Char :=
  if n < 10 then Char.ofNat (48 + n) else Char.ofNat (87 + n)

/-- Four lowercase hex digits of a code unit below 0x10000. -/
def u4hex (n : Nat) : List Char :=
  [hexDigit (n / 4096 % 16), hexDigit (n / 256 % 16), hexDigit (n / 16 % 16),
    hexDigit (n % 16)]

/-- Decimal digits of a natural number, most significant first, with an
explicit fuel argument (the fuel is always at least the number itself, so
the `0` case is never reached). -/
def natCharsAux : Nat → Nat → List Char → List Char
  | 0, _, acc => acc
  | f + 1, n, acc =>
    if n < 10 then Char.ofNat (48 + n % 10) :: acc
    else natCharsAux f (n / 10) (Char.ofNat (48 + n % 10) :: acc)

/-- Decimal representation of a natural number, e.g. `natChars 120 = "120"`. -/
def natChars (n : Nat) : List Char := natCharsAux (n + 1) n []

/-- Decimal representation of a Python `int`, as printed by `json.dumps`. -/
def intChars (n : Int) : List Char :=
  if n < 0 then '-' :: natChars n.natAbs else natChars n.natAbs

/-- Escaping of one character by `json.dumps` with its default
`ensure_ascii=True` (CPython's `py_encode_basestring_ascii`): named escapes
for quote, backslash and the five control characters with short forms,
`\uXXXX` for the remaining characters outside `0x20..0x7e`, and a UTF-16
surrogate pair of `\uXXXX` escapes for characters beyond `0xFFFF`. -/
def escChar (c : Char) : List Char :=
  if c = '"' then ['\\', '"']
  else if c = '\\' then ['\\', '\\']
  else if c.toNat = 8 then ['\\', 'b']
  else if c.toNat = 12 then ['\\', 'f']
  else if c = '\n' then ['\\', 'n']
  else if c = '\r' then ['\\', 'r']
  else if c = '\t' then ['\\', 't']
  else if c.toNat < 0x20 then '\\' :: 'u' :: u4hex c.toNat
  else if c.toNat < 0x7f then [c]
  else if c.toNat < 0x10000 then '\\' :: 'u' :: u4hex c.toNat
  else
    '\\' :: 'u' :: u4hex (0xD800 + (c.toNat - 0x10000) / 1024) ++
      '\\' :: 'u' :: u4hex (0xDC00 + (c.toNat - 0x10000) % 1024)

/-- Serialization of a Python string literal by `json.dumps`: double quotes
around the escaped characters. -/
def serStr (s : String) : List Char :=
  '"' :: s.data.flatMap escChar ++ ['"']

mutual
/-- Serialization of a JSON value by `json.dumps` with default arguments:
item separator `", "`, key separator `": "` (CPython's defaults when
`indent=None`), `ensure_ascii=True` escaping. -/
def ser : Json → List Char
  | .null => "null".data
  | .bool true => "true".data
  | .bool false => "false".data
  | .num n => intChars n
  | .str s => serStr s
  | .arr items => '[' :: serItems items ++ [']']
  | .obj members => '\x7b' :: serMembers members ++ ['\x7d']

/-- Array items joined by `", "`. -/
def serItems : List Json → List Char
  | [] => []
  | [v] => ser v
  | v :: vs => ser v ++ ',' :: ' ' :: serItems vs

/-- Object members `"key": value` joined by `", "`. -/
def serMembers : List (String × Json) → List Char
  | [] => []
  | [(k, v)] => serStr k ++ ':' :: ' ' :: ser v
  | (k, v) :: ms => serStr k ++ ':' :: ' ' :: ser v ++ ',' :: ' ' :: serMembers ms
end

/-- Model of `json.dumps` (restricted to JSON-representable values, where it
cannot raise; `dumpsP` below extends the model to non-representable
values). -/
def json_dumps (v : Json) : String := String.mk (ser v)

/-- UTF-8 encoding of one unicode scalar value, as `str.encode()` produces. -/
def utf8Char (c : Char) : List Nat :=
  if c.toNat < 0x80 then [c.toNat]
  else if c.toNat < 0x800 then [0xC0 + c.toNat / 64, 0x80 + c.toNat % 64]
  else if c.toNat < 0x10000 then
    [0xE0 + c.toNat / 4096, 0x80 + c.toNat / 64 % 64, 0x80 + c.toNat % 64]
  else
    [0xF0 + c.toNat / 262144, 0x80 + c.toNat / 4096 % 64,
      0x80 + c.toNat / 64 % 64, 0x80 + c.toNat % 64]

/-- UTF-8 encoding of a string (`config_json.encode()` in the source). -/
def utf8Encode (cs : List Char) : List Nat := cs.flatMap utf8Char

/-- Character of one base64 sextet, standard alphabet (RFC 4648, the
alphabet of Python's `base64.b64encode`). -/
def b64char (n : Nat) : Char :=
  if n < 26 then Char.ofNat (65 + n)
  else if n < 52 then Char.ofNat (97 + (n - 26))
  else if n < 62 then Char.ofNat (48 + (n - 52))
  else if n = 62 then '+'
  else '/'

/-- Standard base64 encoding of a byte sequence with `=` padding
(`base64.b64encode`): three bytes become four alphabet characters; a final
group of one or two bytes is padded with `==` or `=`. -/
def b64encodeCh : List Nat → List Char
  | [] => []
  | [b0] => [b64char (b0 / 4), b64char (b0 % 4 * 16), '=', '=']
  | [b0, b1] =>
    [b64char (b0 / 4), b64char (b0 % 4 * 16 + b1 / 16), b64char (b1 % 16 * 4), '=']
  | b0 :: b1 :: b2 :: rest =>
    b64char (b0 / 4) :: b64char (b0 % 4 * 16 + b1 / 16) ::
      b64char (b1 % 16 * 4 + b2 / 64) :: b64char (b2 % 64) :: b64encodeCh rest

/-- Model of `base64.b64encode(...).decode()`: the base64 text as a string
(the alphabet is pure ASCII, so the final `.decode()` is the identity on
the characters). -/
def b64encode (bs : List Nat) : String := String.mk (b64encodeCh bs)

/-- Model of `create_websocket_url` (`main.py` lines 139-147): serialize the
configuration object with `json.dumps`, base64-encode its UTF-8 bytes, and
substitute identifier and encoded blob into the fixed URL template.  The
`config` argument is the request's `config: Dict[str, Any]` field, i.e. a
JSON object given as its member list. -/
def create_websocket_url (qualifiedName : String) (config : List (String × Json)) :
    String :=
  let config_json := json_dumps (Json.obj config)
  let config_base64 := b64encode (utf8Encode config_json.data)
  "https://server.smithery.ai/" ++ qualifiedName ++ "/ws?config=" ++ config_base64

/-- Sextet value of a base64 alphabet character (inverse lookup used by the
spec-side decoder). -/
def sextet (c : Char) : Option Nat :=
  if 'A' ≤ c ∧ c ≤ 'Z' then some (c.toNat - 65)
  else if 'a' ≤ c ∧ c ≤ 'z' then some (26 + (c.toNat - 97))
  else if '0' ≤ c ∧ c ≤ '9' then some (52 + (c.toNat - 48))
  else if c = '+' then some 62
  else if c = '/' then some 63
  else none

/-- Spec-side decoder for standard padded base64 (inverse of
`base64.b64encode`): input must be a sequence of four-character groups, `=`
padding only in the final group, with the padded sextet bits zero. -/
def b64decodeCh : List Char → Option (List Nat)
  | [] => some []
  | c0 :: c1 :: c2 :: c3 :: rest => do
    let s0 ← sextet c0
    let s1 ← sextet c1
    if c2 = '=' then
      if c3 = '=' ∧ rest = [] ∧ s1 % 16 = 0 then some [s0 * 4 + s1 / 16] else none
    else do
      let s2 ← sextet c2
      if c3 = '=' then
        if rest = [] ∧ s2 % 4 = 0 then
          some [s0 * 4 + s1 / 16, s1 % 16 * 16 + s2 / 4]
        else none
      else do
        let s3 ← sextet c3
        let bs ← b64decodeCh rest
        some ((s0 * 4 + s1 / 16) :: (s1 % 16 * 16 + s2 / 4) :: (s2 % 4 * 64 + s3) :: bs)
  | _ => none

mutual
/-- Spec-side UTF-8 decoder (inverse of `utf8Encode`), with the standard
validity checks: no continuation or overlong lead bytes in lead position,
continuation bytes in `0x80..0xBF`, no overlong encodings, no surrogate
code points, scalar values below 0x110000.  The two-, three- and four-byte
forms are handled by the helpers below. -/
def utf8Decode : List Nat → Option (List Char)
  | [] => some []
  | b :: rest =>
    if b < 0x80 then (utf8Decode rest).map (Char.ofNat b :: ·)
    else if b < 0xC2 then none
    else if b < 0xE0 then utf8Dec2 b rest
    else if b < 0xF0 then utf8Dec3 b rest
    else if b < 0xF5 then utf8Dec4 b rest
    else none

/-- Continuation of a two-byte UTF-8 sequence. -/
def utf8Dec2 (b : Nat) : List Nat → Option (List Char)
  | b1 :: rest1 =>
    if 0x80 ≤ b1 ∧ b1 < 0xC0 then
      (utf8Decode rest1).map (Char.ofNat ((b - 0xC0) * 64 + (b1 - 0x80)) :: ·)
    else none
  | [] => none

/-- Continuation of a three-byte UTF-8 sequence. -/
def utf8Dec3 (b : Nat) : List Nat → Option (List Char)
  | b1 :: b2 :: rest2 =>
    if (0x80 ≤ b1 ∧ b1 < 0xC0) ∧ (0x80 ≤ b2 ∧ b2 < 0xC0) then
      if 0x800 ≤ (b - 0xE0) * 4096 + (b1 - 0x80) * 64 + (b2 - 0x80) ∧
          ¬ (0xD800 ≤ (b - 0xE0) * 4096 + (b1 - 0x80) * 64 + (b2 - 0x80) ∧
            (b - 0xE0) * 4096 + (b1 - 0x80) * 64 + (b2 - 0x80) < 0xE000) then
        (utf8Decode rest2).map
          (Char.ofNat ((b - 0xE0) * 4096 + (b1 - 0x80) * 64 + (b2 - 0x80)) :: ·)
      else none
    else none
  | _ => none

/-- Continuation of a four-byte UTF-8 sequence. -/
def utf8Dec4 (b : Nat) : List Nat → Option (List Char)
  | b1 :: b2 :: b3 :: rest3 =>
    if (0x80 ≤ b1 ∧ b1 < 0xC0) ∧ (0x80 ≤ b2 ∧ b2 < 0xC0) ∧
        (0x80 ≤ b3 ∧ b3 < 0xC0) then
      if 0x10000 ≤ (b - 0xF0) * 262144 + (b1 - 0x80) * 4096 +
            (b2 - 0x80) * 64 + (b3 - 0x80) ∧
          (b - 0xF0) * 262144 + (b1 - 0x80) * 4096 + (b2 - 0x80) * 64 +
            (b3 - 0x80) < 0x110000 then
        (utf8Decode rest3).map
          (Char.ofNat ((b - 0xF0) * 262144 + (b1 - 0x80) * 4096 +
            (b2 - 0x80) * 64 + (b3 - 0x80)) :: ·)
      else none
    else none
  | _ => none
end

/-- JSON insignificant whitespace. -/
def isJsonWs (c : Char) : Bool := c = ' ' || c = '\t' || c = '\n' || c = '\r'

/-- Skip insignificant whitespace. -/
def skipWs (cs : List Char) : List Char := cs.dropWhile isJsonWs

/-- Value of one hexadecimal digit (either case, as JSON `\uXXXX` allows). -/
def hexVal (c : Char) : Option Nat :=
  if '0' ≤ c ∧ c ≤ '9' then some (c.toNat - 48)
  else if 'a' ≤ c ∧ c ≤ 'f' then some (c.toNat - 87)
  else if 'A' ≤ c ∧ c ≤ 'F' then some (c.toNat - 55)
  else none

mutual
/-- Spec-side scanner for the body of a JSON string literal, positioned
just after the opening quote.  Returns the decoded characters and the
input remaining after the closing quote.  Handles the short escapes, plain
`\uXXXX` escapes and UTF-16 surrogate pairs of `\uXXXX` escapes (a lone
surrogate escape is rejected: the scalar-value strings of the embedding
cannot represent it, and the serializer never emits one). -/
def scanString : List Char → Option (List Char × List Char)
  | [] => none
  | c :: rest =>
    if c = '"' then some ([], rest)
    else if c = '\\' then scanEsc rest
    else (scanString rest).map (fun p => (c :: p.1, p.2))

/-- One escape sequence, positioned just after the backslash. -/
def scanEsc : List Char → Option (List Char × List Char)
  | [] => none
  | e :: rest1 =>
    if e = '"' then (scanString rest1).map (fun p => ('"' :: p.1, p.2))
    else if e = '\\' then (scanString rest1).map (fun p => ('\\' :: p.1, p.2))
    else if e = '/' then (scanString rest1).map (fun p => ('/' :: p.1, p.2))
    else if e = 'b' then (scanString rest1).map (fun p => (Char.ofNat 8 :: p.1, p.2))
    else if e = 'f' then (scanString rest1).map (fun p => (Char.ofNat 12 :: p.1, p.2))
    else if e = 'n' then (scanString rest1).map (fun p => ('\n' :: p.1, p.2))
    else if e = 'r' then (scanString rest1).map (fun p => ('\r' :: p.1, p.2))
    else if e = 't' then (scanString rest1).map (fun p => ('\t' :: p.1, p.2))
    else if e = 'u' then scanU rest1
    else none

/-- One `\uXXXX` escape, positioned just after the `u`. -/
def scanU : List Char → Option (List Char × List Char)
  | h1 :: h2 :: h3 :: h4 :: rest2 =>
    match hexVal h1, hexVal h2, hexVal h3, hexVal h4 with
    | some v1, some v2, some v3, some v4 =>
      if 0xD800 ≤ v1 * 4096 + v2 * 256 + v3 * 16 + v4 ∧
          v1 * 4096 + v2 * 256 + v3 * 16 + v4 < 0xDC00 then
        scanPair (v1 * 4096 + v2 * 256 + v3 * 16 + v4) rest2
      else if 0xDC00 ≤ v1 * 4096 + v2 * 256 + v3 * 16 + v4 ∧
          v1 * 4096 + v2 * 256 + v3 * 16 + v4 < 0xE000 then none
      else
        (scanString rest2).map (fun p =>
          (Char.ofNat (v1 * 4096 + v2 * 256 + v3 * 16 + v4) :: p.1, p.2))
    | _, _, _, _ => none
  | _ => none

/-- The low half of a surrogate pair: a second `\uXXXX` escape whose value
combines with the pending high surrogate `n`. -/
def scanPair (n : Nat) : List Char → Option (List Char × List Char)
  | e2 :: u2 :: g1 :: g2 :: g3 :: g4 :: rest3 =>
    if e2 = '\\' ∧ u2 = 'u' then
      match hexVal g1, hexVal g2, hexVal g3, hexVal g4 with
      | some w1, some w2, some w3, some w4 =>
        if 0xDC00 ≤ w1 * 4096 + w2 * 256 + w3 * 16 + w4 ∧
            w1 * 4096 + w2 * 256 + w3 * 16 + w4 < 0xE000 then
          (scanString rest3).map (fun p =>
            (Char.ofNat ((n - 0xD800) * 1024 +
              (w1 * 4096 + w2 * 256 + w3 * 16 + w4 - 0xDC00) + 0x10000) :: p.1, p.2))
        else none
      | _, _, _, _ => none
    else none
  | _ => none
end

/-- Numeric value of a most-significant-first digit string. -/
def digitsVal (ds : List Char) : Nat :=
  ds.foldl (fun a c => a * 10 + (c.toNat - 48)) 0

/-- Greedy scanner for a nonempty run of decimal digits. -/
def scanNat (cs : List Char) : Option (Nat × List Char) :=
  let ds := cs.takeWhile Char.isDigit
  if ds = [] then none else some (digitsVal ds, cs.dropWhile Char.isDigit)

/-- Spec-side recursive-descent JSON parser for one value, fuel-indexed
(the fuel only bounds nesting; one more than the input length always
suffices because every recursive call consumes at least one character).
Object and array tails are parsed by re-entering the function on a
reconstructed `'\x7b'`/`'['` input, which prepends the parsed member.
Numbers are the integer fragment, matching the embedding's number model. -/
def parseVal : Nat → List Char → Option (Json × List Char)
  | 0, _ => none
  | f + 1, cs =>
    match skipWs cs with
    | [] => none
    | c :: rest =>
      if c = 'n' then
        match rest with
        | 'u' :: 'l' :: 'l' :: r => some (Json.null, r)
        | _ => none
      else if c = 't' then
        match rest with
        | 'r' :: 'u' :: 'e' :: r => some (Json.bool true, r)
        | _ => none
      else if c = 'f' then
        match rest with
        | 'a' :: 'l' :: 's' :: 'e' :: r => some (Json.bool false, r)
        | _ => none
      else if c = '"' then
        (scanString rest).map (fun p => (Json.str (String.mk p.1), p.2))
      else if c = '-' then
        match scanNat rest with
        | some (n, r) => some (Json.num (-(n : Int)), r)
        | none => none
      else if c.isDigit then
        match scanNat (c :: rest) with
        | some (n, r) => some (Json.num (n : Int), r)
        | none => none
      else if c = '\x7b' then
        match skipWs rest with
        | '\x7d' :: r => some (Json.obj [], r)
        | '"' :: r =>
          match scanString r with
          | none => none
          | some (k, r1) =>
            match skipWs r1 with
            | ':' :: r2 =>
              match parseVal f r2 with
              | none => none
              | some (v, r3) =>
                match skipWs r3 with
                | '\x7d' :: r4 => some (Json.obj [(String.mk k, v)], r4)
                | ',' :: r4 =>
                  match parseVal f ('\x7b' :: r4) with
                  | some (Json.obj ms, r5) =>
                    some (Json.obj ((String.mk k, v) :: ms), r5)
                  | _ => none
                | _ => none
            | _ => none
        | _ => none
      else if c = '[' then
        match skipWs rest with
        | ']' :: r => some (Json.arr [], r)
        | _ =>
          match parseVal f rest with
          | none => none
          | some (v, r1) =>
            match skipWs r1 with
            | ']' :: r2 => some (Json.arr [v], r2)
            | ',' :: r2 =>
              match parseVal f ('[' :: r2) with
              | some (Json.arr vs, r3) => some (Json.arr (v :: vs), r3)
              | _ => none
            | _ => none
      else none

/-- Spec-side model of parsing a whole JSON text (as `json.loads` does on a
string): parse one value and require only whitespace to remain. -/
def parseJsonText (cs : List Char) : Option Json :=
  match parseVal (cs.length + 1) cs with
  | some (v, r) => if skipWs r = [] then some v else none
  | none => none

/-- Decoding of the `config=` URL segment as the spec's round-trip law
reads it: standard padded base64 to bytes, UTF-8 to text (as `json.loads`
does when handed bytes), then JSON parsing. -/
def decode_config_segment (seg : String) : Option Json := do
  let bytes ← b64decodeCh seg.data
  let chars ← utf8Decode bytes
  parseJsonText chars

/-- Python runtime values as they can populate a `Dict[str, Any]`:
the JSON-representable shapes, plus `pyObj`, standing for any value with no
JSON representation (a set, a custom object, ...), on which `json.dumps`
raises `TypeError`.  Over the HTTP interface `pyObj` is unreachable: the
body is parsed from JSON text, which only produces the other shapes. -/
inductive PyValue where
  | pyNone
  | pyBool (b : Bool)
  | pyInt (n : Int)
  | pyStr (s : String)
  | pyList (xs : List PyValue)
  | pyDict (kvs : List (String × PyValue))
  | pyObj (descr : String)

mutual
/-- Model of `json.dumps` on arbitrary `Dict[str, Any]` content: `none`
models the `TypeError` raised on a value with no JSON representation;
otherwise the serialized text agrees with `ser`. -/
def dumpsP : PyValue → Option (List Char)
  | .pyNone => some "null".data
  | .pyBool true => some "true".data
  | .pyBool false => some "false".data
  | .pyInt n => some (intChars n)
  | .pyStr s => some (serStr s)
  | .pyList xs => (dumpsItemsP xs).map (fun body => '[' :: body ++ [']'])
  | .pyDict ms => (dumpsMembersP ms).map (fun body => '\x7b' :: body ++ ['\x7d'])
  | .pyObj _ => none

/-- Items of a Python list under `dumpsP`. -/
def dumpsItemsP : List PyValue → Option (List Char)
  | [] => some []
  | [v] => dumpsP v
  | v :: vs => do
    let a ← dumpsP v
    let b ← dumpsItemsP vs
    some (a ++ ',' :: ' ' :: b)

/-- Members of a Python dict under `dumpsP`. -/
def dumpsMembersP : List (String × PyValue) → Option (List Char)
  | [] => some []
  | [(k, v)] => (dumpsP v).map (fun a => serStr k ++ ':' :: ' ' :: a)
  | (k, v) :: ms => do
    let a ← dumpsP v
    let b ← dumpsMembersP ms
    some (serStr k ++ ':' :: ' ' :: a ++ ',' :: ' ' :: b)
end

/-- Model of the `create_websocket_url` endpoint on arbitrary Python
`config` content.  The handler calls `json.dumps(request.config)` with no
`try`/`except` (`main.py` line 141): when the configuration has no JSON
representation, the `TypeError` escapes the handler, and an unhandled
exception in a request handler surfaces to the caller as a generic
`500 Internal Server Error`, not as a locally raised `HTTPException`.
No outbound network call exists on any path of this endpoint. -/
def create_websocket_url_py (qualifiedName : String)
    (config : List (String × PyValue)) : Except HTTPException String :=
  match dumpsP (PyValue.pyDict config) with
  | some config_json =>
    .ok ("https://server.smithery.ai/" ++ qualifiedName ++ "/ws?config=" ++
      b64encode (utf8Encode config_json))
  | none => .error ⟨500, "Internal Server Error"⟩

/-- Does the input start with a decimal digit?  (Side condition for the
greedy number scanner: a serialized value may be followed by `rest` only
when `rest` cannot extend a digit run.) -/
def headIsDigit : List Char → Bool
  | c :: _ => c.isDigit
  | [] => false

/-- Deleting every `"Bearer "` occurrence is the identity on strings that
contain none. -/
theorem replace_Bearer_of_not_has :
    ∀ cs : List Char, has_Bearer cs = false → replace_Bearer cs = cs := by
  intro cs h
  induction cs using replace_Bearer.induct with
  | case1 rest ih =>
    rw [has_Bearer] at h
    exact absurd h (by simp)
  | case2 c cs hne ih =>
    rw [replace_Bearer.eq_2 _ _ (fun rest hB hcs => hne rest hB hcs)]
    rw [has_Bearer.eq_2 _ _ (fun rest hB hcs => hne rest hB hcs)] at h
    rw [ih h]
  | case3 => rfl

/-- Unfolding `verify_token` on a header that does start with `"Bearer "`:
the prefix test passes and the remaining occurrences are deleted. -/
theorem verify_token_bearer (T : String) :
    verify_token ("Bearer " ++ T) =
      (if String.mk (replace_Bearer T.data) = "" then
        .error ⟨401, "No token provided"⟩
      else .ok (String.mk (replace_Bearer T.data))) := by
  have hdata : ("Bearer " ++ T).data
      = 'B' :: 'e' :: 'a' :: 'r' :: 'e' :: 'r' :: ' ' :: T.data := by
    rw [String.data_append]
    rfl
  rw [verify_token, hdata]
  rw [show replace_Bearer ('B' :: 'e' :: 'a' :: 'r' :: 'e' :: 'r' :: ' ' :: T.data)
      = replace_Bearer T.data from rfl]
  simp [List.isPrefixOf, String.data]

/-- Helper: the `q` parameter never appears in the outbound parameter list
when the caller did not supply it. -/
theorem list_servers_request_no_q (page page_size : Int) (tok : String) :
    (list_servers_request none page page_size tok).params.filter
      (fun p => p.1 == "q") = [] := by
  simp only [list_servers_request]
  split
  · split
    · rfl
    · rfl
  · split
    · rfl
    · rfl

/-- C2 counterexample: the claim quantifies over every token string `T` and
asserts `"Bearer " + T` is accepted iff `T` is non-empty, with `T` returned.
At `T = "Bearer "` the header is `"Bearer Bearer "`; `T` is non-empty and
yet the gate rejects with 401, because `str.replace` deletes both
occurrences of `"Bearer "` and leaves the empty string. -/
theorem C2_counterexample :
    verify_token ("Bearer " ++ "Bearer ")
        = Except.error ⟨401, "No token provided"⟩
      ∧ ("Bearer " : String) ≠ "" := by
  exact ⟨rfl, by decide⟩

/-- C2 amended: for a token `T` that does not itself contain the substring
`"Bearer "`, the gate accepts header `"Bearer " + T` iff `T` is non-empty
and returns `T`; a header not starting with `"Bearer "` is rejected with
401.  (Tokens containing `"Bearer "` fall under the replace-all behaviour
established for C9; a request with no Authorization header is rejected by
framework request validation before `verify_token` runs.) -/
theorem verify_token_shape :
    (∀ T : String, has_Bearer T.data = false →
      verify_token ("Bearer " ++ T)
        = if T = "" then Except.error ⟨401, "No token provided"⟩
          else Except.ok T)
    ∧ (∀ H : String, "Bearer ".data.isPrefixOf H.data = false →
      verify_token H = Except.error ⟨401, "Invalid authorization header format"⟩) := by
  constructor
  · intro T h
    rw [verify_token_bearer T, replace_Bearer_of_not_has _ h]
  · intro H h
    simp [verify_token, h]

/-- C2 witness: concrete accepted and rejected headers through
`verify_token_shape`. -/
theorem C2_witness :
    verify_token ("Bearer " ++ "tok") = Except.ok "tok"
      ∧ verify_token "Token abc"
        = Except.error ⟨401, "Invalid authorization header format"⟩ := by
  constructor
  · have h := verify_token_shape.1 "tok" (by decide)
    rw [if_neg (by decide)] at h
    exact h
  · exact verify_token_shape.2 "Token abc" (by decide)

/-- C9: the gate deletes every occurrence of `"Bearer "`, not only the
leading prefix: for any header `"Bearer " + T` the validated token is `T`
with all `"Bearer "` occurrences removed (rejected iff that remainder is
empty); concretely, `"Bearer Bearer x"` validates to token `"x"`, and
`"Bearer Bearer Bearer "`, whose token after the first prefix is the
non-empty `"Bearer Bearer "`, is rejected with 401. -/
theorem verify_token_replaces_all :
    (∀ T : String, verify_token ("Bearer " ++ T)
      = if String.mk (replace_Bearer T.data) = "" then
          Except.error ⟨401, "No token provided"⟩
        else Except.ok (String.mk (replace_Bearer T.data)))
    ∧ verify_token "Bearer Bearer x" = Except.ok "x"
    ∧ verify_token "Bearer Bearer Bearer "
        = Except.error ⟨401, "No token provided"⟩ := by
  refine ⟨fun T => verify_token_bearer T, rfl, rfl⟩

/-- C3 counterexample: the inbound header `"Bearer tok123"` is accepted
with token `"tok123"`, but the outbound request of the List forwarder
carries the header value `"tok123"`, which is not `"Bearer tok123"`: the
code forwards the stripped token without re-attaching the `Bearer `
prefix. -/
theorem C3_counterexample :
    verify_token "Bearer tok123" = Except.ok "tok123"
      ∧ (list_servers none none none "Bearer tok123").map
          OutboundRequest.headers = Except.ok [("Authorization", "tok123")]
      ∧ ("tok123" : String) ≠ "Bearer " ++ "tok123" := by
  exact ⟨rfl, rfl, by decide⟩

/-- C3 amended: for every accepted credential with validated token `T`, the
outbound GET requests of the List and Detail forwarders carry the header
`Authorization: <T>` — the bare token as returned by `verify_token`, with
the `Bearer ` prefix stripped rather than forwarded. -/
theorem forwarded_credential_bare :
    ∀ H T : String, verify_token H = Except.ok T →
      (∀ (q : Option String) (page pageSize : Option Int),
        (list_servers q page pageSize H).map OutboundRequest.headers
          = Except.ok [("Authorization", T)])
      ∧ (∀ qn : String,
        (get_server qn H).map OutboundRequest.headers
          = Except.ok [("Authorization", T)]) := by
  intro H T h
  constructor
  · intro q page pageSize
    simp [list_servers, h, list_servers_request, Except.map]
  · intro qn
    simp [get_server, h, get_server_request, Except.map]

/-- C3 witness: `forwarded_credential_bare` at the concrete header
`"Bearer abc"`. -/
theorem C3_witness :
    (list_servers none none none "Bearer abc").map OutboundRequest.headers
      = Except.ok [("Authorization", "abc")] :=
  (forwarded_credential_bare "Bearer abc" "abc" rfl).1 none none none

/-- C4 counterexample: with `q="search"` supplied and `page`, `pageSize`
omitted, the claim requires the outbound query to contain only `q`; the
code instead sends the framework defaults `page=1` and `pageSize=10` as
well. -/
theorem C4_counterexample :
    (list_servers (some "search") none none "Bearer abc").map
        OutboundRequest.params
      = Except.ok [("q", QueryVal.s "search"), ("page", QueryVal.i 1),
          ("pageSize", QueryVal.i 10)]
      ∧ [("q", QueryVal.s "search"), ("page", QueryVal.i 1),
          ("pageSize", QueryVal.i 10)]
        ≠ [("q", QueryVal.s "search")] := by
  exact ⟨rfl, by decide⟩

/-- C4 amended: when `q`, `page` and `pageSize` are all supplied with
truthy values, exactly those three parameters are sent and no others; an
omitted `q` never yields an outbound `q` parameter; but an omitted `page`
or `pageSize` is still sent, with the handler defaults 1 and 10. -/
theorem list_params_exactly_supplied :
    ((list_servers (some "search") (some 2) (some 5) "Bearer t").map
        OutboundRequest.params
      = Except.ok [("q", QueryVal.s "search"), ("page", QueryVal.i 2),
          ("pageSize", QueryVal.i 5)])
    ∧ (∀ (page pageSize : Int) (tok : String),
        (list_servers_request none page pageSize tok).params.filter
          (fun p => p.1 == "q") = [])
    ∧ ((list_servers (some "search") none none "Bearer t").map
        OutboundRequest.params
      = Except.ok [("q", QueryVal.s "search"), ("page", QueryVal.i 1),
          ("pageSize", QueryVal.i 10)]) := by
  exact ⟨rfl, fun page pageSize tok => list_servers_request_no_q page pageSize tok, rfl⟩

/-- C10: falsy parameter values are dropped even when explicitly supplied —
`q=""`, `page=0`, `pageSize=0` produce an empty outbound query — while
fully omitted `page`/`pageSize` are sent with the defaults 1 and 10, and a
supplied `page=0` is dropped while the omitted `pageSize` still defaults
to 10. -/
theorem falsy_params_omitted :
    ((list_servers (some "") (some 0) (some 0) "Bearer t").map
        OutboundRequest.params = Except.ok [])
    ∧ ((list_servers none none none "Bearer t").map OutboundRequest.params
        = Except.ok [("page", QueryVal.i 1), ("pageSize", QueryVal.i 10)])
    ∧ ((list_servers (some "x") (some 0) none "Bearer t").map
        OutboundRequest.params
        = Except.ok [("q", QueryVal.s "x"), ("pageSize", QueryVal.i 10)]) := by
  exact ⟨rfl, rfl, rfl⟩

/-- C5: any non-success remote status (outside `2xx`; the code tests
`!= 200`, which such a status satisfies) makes both forwarders fail with an
`HTTPException` whose status code is the remote status and whose detail is
the fixed prefix followed by the remote body verbatim. -/
theorem upstream_error_propagation :
    ∀ (status_code : Nat) (text : String),
      ¬ (200 ≤ status_code ∧ status_code < 300) →
      list_servers_response status_code text
          = Except.error ⟨status_code, "Smithery Registry API error: " ++ text⟩
        ∧ get_server_response status_code text
          = Except.error ⟨status_code, "Smithery Registry API error: " ++ text⟩ := by
  intro s t h
  have hs : s ≠ 200 := by omega
  exact ⟨by simp [list_servers_response, hs], by simp [get_server_response, hs]⟩

/-- C5 witness: a registry 404 with body `{"error":"not found"}` surfaces
from the Detail forwarder as status 404 with the body embedded in the
detail. -/
theorem C5_witness :
    get_server_response 404 "\x7b\"error\":\"not found\"\x7d"
      = Except.error ⟨404,
          "Smithery Registry API error: " ++ "\x7b\"error\":\"not found\"\x7d"⟩ :=
  (upstream_error_propagation 404 "\x7b\"error\":\"not found\"\x7d" (by omega)).2

/-- C6: on `qualifiedName="acme/tool"`, `config={"key":"value"}` the builder
returns exactly the template URL with the standard base64 encoding of the
serialized JSON text `{"key": "value"}` (which encodes to
`eyJrZXkiOiAidmFsdWUifQ==`). -/
theorem create_websocket_url_example :
    create_websocket_url "acme/tool" [("key", Json.str "value")]
        = "https://server.smithery.ai/acme/tool/ws?config=eyJrZXkiOiAidmFsdWUifQ=="
      ∧ ("eyJrZXkiOiAidmFsdWUifQ==" : String)
        = b64encode (utf8Encode (json_dumps (Json.obj [("key", Json.str "value")])).data) := by
  exact ⟨by decide, by decide⟩

/-- C7: the URL builder is deterministic — it is a pure function of the
identifier and the configuration object alone (the embedding is a pure
function because the source consults no state, clock or randomness), so
two invocations on equal inputs return byte-identical strings. -/
theorem create_websocket_url_deterministic :
    ∀ (qn qn' : String) (config config' : List (String × Json)),
      qn = qn' → config = config' →
      create_websocket_url qn config = create_websocket_url qn' config' := by
  intro qn qn' config config' h1 h2
  rw [h1, h2]

/-- C7 witness: `create_websocket_url_deterministic` at concrete equal
inputs. -/
theorem C7_witness :
    create_websocket_url "acme/tool" [("key", Json.str "value")]
      = create_websocket_url "acme/tool" [("key", Json.str "value")] :=
  create_websocket_url_deterministic "acme/tool" "acme/tool"
    [("key", Json.str "value")] [("key", Json.str "value")] rfl rfl

/-- C8 counterexample: a configuration holding a value with no JSON
representation (modelled by `PyValue.pyObj`, e.g. a Python set) makes the
endpoint fail with status 500 — the uncaught `TypeError` surfacing as a
generic server error — and 500 is not in the client-error class
`400..499` required by the claim. -/
theorem C8_counterexample :
    create_websocket_url_py "acme/tool" [("key", PyValue.pyObj "set()")]
        = Except.error ⟨500, "Internal Server Error"⟩
      ∧ ¬ (400 ≤ (500 : Nat) ∧ (500 : Nat) < 500) := by
  constructor
  · simp [create_websocket_url_py, dumpsP, dumpsMembersP]
  · omega

/-- C8 amended: a non-serializable configuration makes the builder fail
locally — the endpoint has no network interaction on any path — but the
failure is the uncaught serialization `TypeError` surfacing as a generic
`500 Internal Server Error`, not an `InvalidInput`-class client error (the
code installs no handler mapping it to one). -/
theorem create_websocket_url_unserializable :
    ∀ (qn : String) (config : List (String × PyValue)),
      dumpsP (PyValue.pyDict config) = none →
      create_websocket_url_py qn config
        = Except.error ⟨500, "Internal Server Error"⟩ := by
  intro qn config h
  simp [create_websocket_url_py, h]

/-- C8 witness: `create_websocket_url_unserializable` at a concrete
non-serializable configuration. -/
theorem C8_witness :
    create_websocket_url_py "srv" [("k", PyValue.pyList [PyValue.pyObj "object()"])]
      = Except.error ⟨500, "Internal Server Error"⟩ :=
  create_websocket_url_unserializable "srv"
    [("k", PyValue.pyList [PyValue.pyObj "object()"])]
    (by simp [dumpsP, dumpsMembersP, dumpsItemsP])

/-- Converting a valid code point to `Char` and back is the identity. -/
theorem toNat_ofNat_valid (n : Nat) (h : n.isValidChar) : (Char.ofNat n).toNat = n := by
  simp [Char.ofNat, h, Char.ofNatAux, Char.toNat]
  rfl

/-- The scalar value of a `Char` is outside the surrogate range and below
0x110000. -/
theorem char_toNat_valid (c : Char) :
    c.toNat < 0xD800 ∨ (0xDFFF < c.toNat ∧ c.toNat < 0x110000) := by
  rcases c.valid with h | h
  · exact Or.inl h
  · exact Or.inr h

/-- Scalar values are below 0x110000. -/
theorem char_toNat_lt (c : Char) : c.toNat < 0x110000 := by
  rcases char_toNat_valid c with h | h <;> omega

/-- Scalar values are never surrogates. -/
theorem char_not_surrogate (c : Char) : ¬ (0xD800 ≤ c.toNat ∧ c.toNat < 0xE000) := by
  rcases char_toNat_valid c with h | h <;> omega

/-- Base64 alphabet table: `sextet` inverts `b64char` and no alphabet
character is the padding `'='`. -/
theorem sextet_b64char_fin :
    ∀ n : Fin 64, sextet (b64char n.val) = some n.val ∧ b64char n.val ≠ '=' := by
  decide

/-- Nat-flavoured wrapper of `sextet_b64char_fin`. -/
theorem sextet_b64char (n : Nat) (h : n < 64) : sextet (b64char n) = some n :=
  (sextet_b64char_fin ⟨n, h⟩).1

/-- Nat-flavoured wrapper of `sextet_b64char_fin`, the padding half. -/
theorem b64char_ne_eq (n : Nat) (h : n < 64) : b64char n ≠ '=' :=
  (sextet_b64char_fin ⟨n, h⟩).2

/-- Hex table: `hexVal` inverts `hexDigit`. -/
theorem hexVal_hexDigit_fin : ∀ n : Fin 16, hexVal (hexDigit n.val) = some n.val := by
  decide

/-- Nat-flavoured wrapper of `hexVal_hexDigit_fin`. -/
theorem hexVal_hexDigit (n : Nat) (h : n < 16) : hexVal (hexDigit n) = some n :=
  hexVal_hexDigit_fin ⟨n, h⟩

/-- Skipping whitespace passes over an all-whitespace block. -/
theorem skipWs_append_ws (ws cs : List Char) (h : ∀ c ∈ ws, isJsonWs c = true) :
    skipWs (ws ++ cs) = skipWs cs := by
  induction ws with
  | nil => rfl
  | cons c ws ih =>
    have hc := h c (by simp)
    simp only [List.cons_append, skipWs, List.dropWhile_cons, hc, if_true]
    exact ih (fun x hx => h x (by simp [hx]))

/-- Skipping whitespace is the identity on input with a non-whitespace
head. -/
theorem skipWs_not_ws (c : Char) (cs : List Char) (h : isJsonWs c = false) :
    skipWs (c :: cs) = c :: cs := by
  simp [skipWs, List.dropWhile_cons, h]

/-- A run of digits followed by a non-digit splits exactly at the
boundary under `takeWhile`/`dropWhile`. -/
theorem digits_span (l1 l2 : List Char) (h1 : ∀ c ∈ l1, c.isDigit = true)
    (h2 : headIsDigit l2 = false) :
    (l1 ++ l2).takeWhile Char.isDigit = l1 ∧
      (l1 ++ l2).dropWhile Char.isDigit = l2 := by
  induction l1 with
  | nil =>
    cases l2 with
    | nil => simp
    | cons c cs =>
      rw [headIsDigit] at h2
      simp [List.takeWhile_cons, List.dropWhile_cons, h2]
  | cons c cs ih =>
    have hc := h1 c (by simp)
    obtain ⟨ht, hd⟩ := ih (fun x hx => h1 x (by simp [hx]))
    simp [List.takeWhile_cons, List.dropWhile_cons, hc, ht, hd]

/-- Digit characters are digits. -/
theorem digitChar_isDigit (d : Nat) (h : d < 10) :
    (Char.ofNat (48 + d)).isDigit = true := by
  interval_cases d <;> decide

/-- Scalar value of a digit character. -/
theorem digitChar_toNat (d : Nat) (h : d < 10) :
    (Char.ofNat (48 + d)).toNat = 48 + d :=
  toNat_ofNat_valid _ (Or.inl (by omega))

/-- Every character produced by `natCharsAux` is a digit. -/
theorem natCharsAux_digits :
    ∀ (f n : Nat) (acc : List Char), n < f → (∀ c ∈ acc, c.isDigit = true) →
      ∀ c ∈ natCharsAux f n acc, c.isDigit = true := by
  intro f
  induction f with
  | zero => intro n acc h; omega
  | succ f ih =>
    intro n acc hnf hacc c hc
    rw [natCharsAux] at hc
    by_cases h10 : n < 10
    · rw [if_pos h10] at hc
      rcases List.mem_cons.mp hc with h | h
      · subst h
        exact digitChar_isDigit (n % 10) (by omega)
      · exact hacc c h
    · rw [if_neg h10] at hc
      refine ih (n / 10) _ (by omega) ?_ c hc
      intro x hx
      rcases List.mem_cons.mp hx with h | h
      · subst h
        exact digitChar_isDigit (n % 10) (by omega)
      · exact hacc x h

/-- `natCharsAux` produces a nonempty list. -/
theorem natCharsAux_shape :
    ∀ (f n : Nat) (acc : List Char), n < f →
      ∃ d rest, natCharsAux f n acc = d :: rest := by
  intro f
  induction f with
  | zero => intro n acc h; omega
  | succ f ih =>
    intro n acc hnf
    rw [natCharsAux]
    by_cases h10 : n < 10
    · rw [if_pos h10]
      exact ⟨_, _, rfl⟩
    · rw [if_neg h10]
      exact ih (n / 10) _ (by omega)

/-- Folding the digit-value step over `natCharsAux f n acc` is folding it
over `acc` from the start value shifted past the digits of `n`. -/
theorem natCharsAux_val :
    ∀ (f n : Nat) (acc : List Char) (a : Nat), n < f →
      ∃ p, 0 < p ∧ n < p ∧
        List.foldl (fun a c => a * 10 + (c.toNat - 48)) a (natCharsAux f n acc)
          = List.foldl (fun a c => a * 10 + (c.toNat - 48)) (a * p + n) acc := by
  intro f
  induction f with
  | zero => intro n acc a h; omega
  | succ f ih =>
    intro n acc a hnf
    rw [natCharsAux]
    by_cases h10 : n < 10
    · rw [if_pos h10]
      refine ⟨10, by omega, by omega, ?_⟩
      rw [List.foldl_cons]
      have harg : a * 10 + ((Char.ofNat (48 + n % 10)).toNat - 48) = a * 10 + n := by
        rw [digitChar_toNat (n % 10) (by omega)]
        omega
      rw [harg]
    · rw [if_neg h10]
      obtain ⟨p, hp0, hnp, heq⟩ := ih (n / 10) _ a (by omega)
      refine ⟨p * 10, by omega, by omega, ?_⟩
      rw [heq, List.foldl_cons]
      have harg : (a * p + n / 10) * 10 + ((Char.ofNat (48 + n % 10)).toNat - 48)
          = a * (p * 10) + n := by
        rw [digitChar_toNat (n % 10) (by omega)]
        ring_nf
        omega
      rw [harg]

/-- The decimal representation contains only digits. -/
theorem natChars_digits (n : Nat) : ∀ c ∈ natChars n, c.isDigit = true :=
  natCharsAux_digits (n + 1) n [] (by omega) (by simp)

/-- The decimal representation is nonempty. -/
theorem natChars_ne (n : Nat) : natChars n ≠ [] := by
  obtain ⟨d, rest, h⟩ := natCharsAux_shape (n + 1) n [] (by omega)
  rw [natChars, h]
  simp

/-- Parsing back the decimal representation gives the number. -/
theorem natChars_val (n : Nat) : digitsVal (natChars n) = n := by
  obtain ⟨p, _, _, h⟩ := natCharsAux_val (n + 1) n [] 0 (by omega)
  rw [digitsVal, natChars] at *
  rw [h]
  simp

/-- The greedy number scanner recovers `n` from its decimal representation
and stops exactly at a non-digit continuation. -/
theorem scanNat_natChars (n : Nat) (rest : List Char) (h : headIsDigit rest = false) :
    scanNat (natChars n ++ rest) = some (n, rest) := by
  obtain ⟨ht, hd⟩ := digits_span (natChars n) rest (natChars_digits n) h
  rw [scanNat]
  simp only [ht, hd]
  rw [if_neg (natChars_ne n), natChars_val n]


/-- Standard padded base64 decoding inverts encoding on byte sequences. -/
theorem b64_roundtrip :
    ∀ bs : List Nat, (∀ b ∈ bs, b < 256) →
      b64decodeCh (b64encodeCh bs) = some bs := by
  intro bs
  induction bs using b64encodeCh.induct with
  | case1 => intro h; rfl
  | case2 b0 =>
    intro h
    have h0 : b0 < 256 := h b0 (by simp)
    show b64decodeCh [b64char (b0 / 4), b64char (b0 % 4 * 16), '=', '='] = some [b0]
    rw [b64decodeCh]
    rw [sextet_b64char (b0 / 4) (by omega), sextet_b64char (b0 % 4 * 16) (by omega)]
    simp [(show b0 % 4 * 16 % 16 = 0 by omega)]
    omega
  | case3 b0 b1 =>
    intro h
    have h0 : b0 < 256 := h b0 (by simp)
    have h1 : b1 < 256 := h b1 (by simp)
    show b64decodeCh [b64char (b0 / 4), b64char (b0 % 4 * 16 + b1 / 16),
        b64char (b1 % 16 * 4), '='] = some [b0, b1]
    rw [b64decodeCh]
    rw [sextet_b64char (b0 / 4) (by omega),
      sextet_b64char (b0 % 4 * 16 + b1 / 16) (by omega)]
    simp [b64char_ne_eq (b1 % 16 * 4) (by omega),
      sextet_b64char (b1 % 16 * 4) (by omega),
      (show b1 % 16 * 4 % 4 = 0 by omega)]
    omega
  | case4 b0 b1 b2 rest ih =>
    intro h
    have h0 : b0 < 256 := h b0 (by simp)
    have h1 : b1 < 256 := h b1 (by simp)
    have h2 : b2 < 256 := h b2 (by simp)
    have hrest := ih (fun b hb => h b (by simp [hb]))
    show b64decodeCh (b64char (b0 / 4) :: b64char (b0 % 4 * 16 + b1 / 16) ::
        b64char (b1 % 16 * 4 + b2 / 64) :: b64char (b2 % 64) :: b64encodeCh rest)
      = some (b0 :: b1 :: b2 :: rest)
    rw [b64decodeCh]
    rw [sextet_b64char (b0 / 4) (by omega),
      sextet_b64char (b0 % 4 * 16 + b1 / 16) (by omega)]
    simp [b64char_ne_eq (b1 % 16 * 4 + b2 / 64) (by omega),
      sextet_b64char (b1 % 16 * 4 + b2 / 64) (by omega),
      b64char_ne_eq (b2 % 64) (by omega),
      sextet_b64char (b2 % 64) (by omega), hrest]
    refine ⟨by omega, by omega, by omega⟩

/-- Bytes of one UTF-8-encoded scalar value are below 256. -/
theorem utf8Char_lt (c : Char) : ∀ b ∈ utf8Char c, b < 256 := by
  intro b hb
  have hlt := char_toNat_lt c
  rw [utf8Char] at hb
  split_ifs at hb with h1 h2 h3
  · simp at hb
    omega
  · simp at hb
    rcases hb with rfl | rfl <;> omega
  · simp at hb
    rcases hb with rfl | rfl | rfl <;> omega
  · simp at hb
    rcases hb with rfl | rfl | rfl | rfl <;> omega

/-- UTF-8 bytes are below 256. -/
theorem utf8Encode_lt (cs : List Char) : ∀ b ∈ utf8Encode cs, b < 256 := by
  induction cs with
  | nil => simp [utf8Encode]
  | cons c cs ih =>
    intro b hb
    rw [utf8Encode, List.flatMap_cons] at hb
    rcases List.mem_append.mp hb with hc | hc
    · exact utf8Char_lt c b hc
    · exact ih b hc

/-- UTF-8 decoding inverts UTF-8 encoding. -/
theorem utf8_roundtrip : ∀ cs : List Char, utf8Decode (utf8Encode cs) = some cs := by
  intro cs
  induction cs with
  | nil => rfl
  | cons c cs ih =>
    rw [utf8Encode, List.flatMap_cons]
    have hlt := char_toNat_lt c
    have hsur := char_not_surrogate c
    rw [utf8Char]
    by_cases ha : c.toNat < 0x80
    · rw [if_pos ha]
      show utf8Decode (c.toNat :: utf8Encode cs) = some (c :: cs)
      rw [utf8Decode, if_pos ha, ih]
      simp
    · rw [if_neg ha]
      by_cases hb : c.toNat < 0x800
      · rw [if_pos hb]
        show utf8Decode ((0xC0 + c.toNat / 64) :: (0x80 + c.toNat % 64) ::
            utf8Encode cs) = some (c :: cs)
        rw [utf8Decode, if_neg (by omega), if_neg (by omega), if_pos (by omega)]
        rw [utf8Dec2, if_pos (by constructor <;> omega)]
        rw [ih]
        have he : (0xC0 + c.toNat / 64 - 0xC0) * 64 + (0x80 + c.toNat % 64 - 0x80)
            = c.toNat := by omega
        rw [he, Char.ofNat_toNat]
        simp
      · rw [if_neg hb]
        by_cases hc : c.toNat < 0x10000
        · rw [if_pos hc]
          show utf8Decode ((0xE0 + c.toNat / 4096) :: (0x80 + c.toNat / 64 % 64) ::
              (0x80 + c.toNat % 64) :: utf8Encode cs) = some (c :: cs)
          rw [utf8Decode, if_neg (by omega), if_neg (by omega), if_neg (by omega),
            if_pos (by omega)]
          rw [utf8Dec3, if_pos (by refine ⟨⟨by omega, by omega⟩, by omega, by omega⟩)]
          have he : (0xE0 + c.toNat / 4096 - 0xE0) * 4096 +
              (0x80 + c.toNat / 64 % 64 - 0x80) * 64 + (0x80 + c.toNat % 64 - 0x80)
              = c.toNat := by omega
          rw [he]
          rw [if_pos ⟨by omega, hsur⟩]
          rw [ih, Char.ofNat_toNat]
          simp
        · rw [if_neg hc]
          show utf8Decode ((0xF0 + c.toNat / 262144) :: (0x80 + c.toNat / 4096 % 64) ::
              (0x80 + c.toNat / 64 % 64) :: (0x80 + c.toNat % 64) ::
              utf8Encode cs) = some (c :: cs)
          rw [utf8Decode, if_neg (by omega), if_neg (by omega), if_neg (by omega),
            if_neg (by omega), if_pos (by omega)]
          rw [utf8Dec4,
            if_pos (by refine ⟨⟨by omega, by omega⟩, ⟨by omega, by omega⟩, by omega, by omega⟩)]
          have he : (0xF0 + c.toNat / 262144 - 0xF0) * 262144 +
              (0x80 + c.toNat / 4096 % 64 - 0x80) * 4096 +
              (0x80 + c.toNat / 64 % 64 - 0x80) * 64 + (0x80 + c.toNat % 64 - 0x80)
              = c.toNat := by omega
          rw [he]
          rw [if_pos ⟨by omega, by omega⟩]
          rw [ih, Char.ofNat_toNat]
          simp


/-- Unfolding of `scanString` on a cons cell (definitional). -/
theorem scanString_cons (c : Char) (rest : List Char) :
    scanString (c :: rest) =
      if c = '"' then some ([], rest)
      else if c = '\\' then scanEsc rest
      else (scanString rest).map (fun p => (c :: p.1, p.2)) := rfl

/-- Unfolding of `scanEsc` on a cons cell (definitional). -/
theorem scanEsc_cons (e : Char) (rest1 : List Char) :
    scanEsc (e :: rest1) =
      if e = '"' then (scanString rest1).map (fun p => ('"' :: p.1, p.2))
      else if e = '\\' then (scanString rest1).map (fun p => ('\\' :: p.1, p.2))
      else if e = '/' then (scanString rest1).map (fun p => ('/' :: p.1, p.2))
      else if e = 'b' then (scanString rest1).map (fun p => (Char.ofNat 8 :: p.1, p.2))
      else if e = 'f' then (scanString rest1).map (fun p => (Char.ofNat 12 :: p.1, p.2))
      else if e = 'n' then (scanString rest1).map (fun p => ('\n' :: p.1, p.2))
      else if e = 'r' then (scanString rest1).map (fun p => ('\r' :: p.1, p.2))
      else if e = 't' then (scanString rest1).map (fun p => ('\t' :: p.1, p.2))
      else if e = 'u' then scanU rest1
      else none := rfl

/-- Unfolding of `scanU` on a four-cons cell (definitional). -/
theorem scanU_cons (h1 h2 h3 h4 : Char) (rest2 : List Char) :
    scanU (h1 :: h2 :: h3 :: h4 :: rest2) =
      match hexVal h1, hexVal h2, hexVal h3, hexVal h4 with
      | some v1, some v2, some v3, some v4 =>
        if 0xD800 ≤ v1 * 4096 + v2 * 256 + v3 * 16 + v4 ∧
            v1 * 4096 + v2 * 256 + v3 * 16 + v4 < 0xDC00 then
          scanPair (v1 * 4096 + v2 * 256 + v3 * 16 + v4) rest2
        else if 0xDC00 ≤ v1 * 4096 + v2 * 256 + v3 * 16 + v4 ∧
            v1 * 4096 + v2 * 256 + v3 * 16 + v4 < 0xE000 then none
        else
          (scanString rest2).map (fun p =>
            (Char.ofNat (v1 * 4096 + v2 * 256 + v3 * 16 + v4) :: p.1, p.2))
      | _, _, _, _ => none := rfl

/-- Unfolding of `scanPair` on a six-cons cell (definitional). -/
theorem scanPair_cons (n : Nat) (e2 u2 g1 g2 g3 g4 : Char) (rest3 : List Char) :
    scanPair n (e2 :: u2 :: g1 :: g2 :: g3 :: g4 :: rest3) =
      if e2 = '\\' ∧ u2 = 'u' then
        match hexVal g1, hexVal g2, hexVal g3, hexVal g4 with
        | some w1, some w2, some w3, some w4 =>
          if 0xDC00 ≤ w1 * 4096 + w2 * 256 + w3 * 16 + w4 ∧
              w1 * 4096 + w2 * 256 + w3 * 16 + w4 < 0xE000 then
            (scanString rest3).map (fun p =>
              (Char.ofNat ((n - 0xD800) * 1024 +
                (w1 * 4096 + w2 * 256 + w3 * 16 + w4 - 0xDC00) + 0x10000) :: p.1, p.2))
          else none
        | _, _, _, _ => none
      else none := rfl

/-- Scanning a serialized string body recovers the original characters and
stops exactly after the closing quote. -/
theorem scanString_esc :
    ∀ cs rest : List Char,
      scanString (cs.flatMap escChar ++ '"' :: rest) = some (cs, rest) := by
  intro cs
  induction cs with
  | nil =>
    intro rest
    simp only [List.flatMap_nil, List.nil_append]
    rw [scanString_cons, if_pos rfl]
  | cons c cs ih =>
    intro rest
    have hvalid := char_toNat_valid c
    have hlt := char_toNat_lt c
    rw [List.flatMap_cons, List.append_assoc, escChar]
    by_cases h1 : c = '"'
    · rw [if_pos h1]
      subst h1
      simp only [List.cons_append, List.nil_append]
      rw [scanString_cons, if_neg (by decide), if_pos rfl, scanEsc_cons,
        if_pos rfl, ih]
      rfl
    · rw [if_neg h1]
      by_cases h2 : c = '\\'
      · rw [if_pos h2]
        subst h2
        simp only [List.cons_append, List.nil_append]
        rw [scanString_cons, if_neg (by decide), if_pos rfl, scanEsc_cons,
          if_neg (by decide), if_pos rfl, ih]
        rfl
      · rw [if_neg h2]
        by_cases h3 : c.toNat = 8
        · rw [if_pos h3]
          have hc : Char.ofNat 8 = c := by rw [← h3, Char.ofNat_toNat]
          simp only [List.cons_append, List.nil_append]
          rw [scanString_cons, if_neg (by decide), if_pos rfl, scanEsc_cons,
            if_neg (by decide), if_neg (by decide), if_neg (by decide),
            if_pos rfl, ih]
          rw [hc]
          rfl
        · rw [if_neg h3]
          by_cases h4 : c.toNat = 12
          · rw [if_pos h4]
            have hc : Char.ofNat 12 = c := by rw [← h4, Char.ofNat_toNat]
            simp only [List.cons_append, List.nil_append]
            rw [scanString_cons, if_neg (by decide), if_pos rfl, scanEsc_cons,
              if_neg (by decide), if_neg (by decide), if_neg (by decide),
              if_neg (by decide), if_pos rfl, ih]
            rw [hc]
            rfl
          · rw [if_neg h4]
            by_cases h5 : c = '\n'
            · rw [if_pos h5]
              subst h5
              simp only [List.cons_append, List.nil_append]
              rw [scanString_cons, if_neg (by decide), if_pos rfl, scanEsc_cons,
                if_neg (by decide), if_neg (by decide), if_neg (by decide),
                if_neg (by decide), if_neg (by decide), if_pos rfl, ih]
              rfl
            · rw [if_neg h5]
              by_cases h6 : c = '\r'
              · rw [if_pos h6]
                subst h6
                simp only [List.cons_append, List.nil_append]
                rw [scanString_cons, if_neg (by decide), if_pos rfl, scanEsc_cons,
                  if_neg (by decide), if_neg (by decide), if_neg (by decide),
                  if_neg (by decide), if_neg (by decide), if_neg (by decide),
                  if_pos rfl, ih]
                rfl
              · rw [if_neg h6]
                by_cases h7 : c = '\t'
                · rw [if_pos h7]
                  subst h7
                  simp only [List.cons_append, List.nil_append]
                  rw [scanString_cons, if_neg (by decide), if_pos rfl, scanEsc_cons,
                    if_neg (by decide), if_neg (by decide), if_neg (by decide),
                    if_neg (by decide), if_neg (by decide), if_neg (by decide),
                    if_neg (by decide), if_pos rfl, ih]
                  rfl
                · rw [if_neg h7]
                  by_cases h8 : c.toNat < 0x20
                  · rw [if_pos h8]
                    rw [u4hex]
                    simp only [List.cons_append, List.nil_append]
                    rw [scanString_cons, if_neg (by decide), if_pos rfl,
                      scanEsc_cons, if_neg (by decide), if_neg (by decide),
                      if_neg (by decide), if_neg (by decide), if_neg (by decide),
                      if_neg (by decide), if_neg (by decide), if_neg (by decide),
                      if_pos rfl]
                    rw [scanU_cons]
                    rw [hexVal_hexDigit (c.toNat / 4096 % 16) (by omega),
                      hexVal_hexDigit (c.toNat / 256 % 16) (by omega),
                      hexVal_hexDigit (c.toNat / 16 % 16) (by omega),
                      hexVal_hexDigit (c.toNat % 16) (by omega)]
                    simp only []
                    have hcomb : c.toNat / 4096 % 16 * 4096 +
                        c.toNat / 256 % 16 * 256 + c.toNat / 16 % 16 * 16 +
                        c.toNat % 16 = c.toNat := by omega
                    rw [hcomb]
                    rw [if_neg (by omega), if_neg (by omega), ih, Char.ofNat_toNat]
                    rfl
                  · rw [if_neg h8]
                    by_cases h9 : c.toNat < 0x7F
                    · rw [if_pos h9]
                      simp only [List.cons_append, List.nil_append]
                      rw [scanString_cons, if_neg h1, if_neg h2, ih]
                      rfl
                    · rw [if_neg h9]
                      by_cases h10 : c.toNat < 0x10000
                      · rw [if_pos h10]
                        rw [u4hex]
                        simp only [List.cons_append, List.nil_append]
                        rw [scanString_cons, if_neg (by decide), if_pos rfl,
                          scanEsc_cons, if_neg (by decide), if_neg (by decide),
                          if_neg (by decide), if_neg (by decide), if_neg (by decide),
                          if_neg (by decide), if_neg (by decide), if_neg (by decide),
                          if_pos rfl]
                        rw [scanU_cons]
                        rw [hexVal_hexDigit (c.toNat / 4096 % 16) (by omega),
                          hexVal_hexDigit (c.toNat / 256 % 16) (by omega),
                          hexVal_hexDigit (c.toNat / 16 % 16) (by omega),
                          hexVal_hexDigit (c.toNat % 16) (by omega)]
                        simp only []
                        have hcomb : c.toNat / 4096 % 16 * 4096 +
                            c.toNat / 256 % 16 * 256 + c.toNat / 16 % 16 * 16 +
                            c.toNat % 16 = c.toNat := by omega
                        rw [hcomb]
                        rw [if_neg (by omega), if_neg (by omega), ih,
                          Char.ofNat_toNat]
                        rfl
                      · rw [if_neg h10]
                        rw [u4hex, u4hex]
                        simp only [List.cons_append, List.nil_append,
                          List.append_assoc]
                        rw [scanString_cons, if_neg (by decide), if_pos rfl,
                          scanEsc_cons, if_neg (by decide), if_neg (by decide),
                          if_neg (by decide), if_neg (by decide), if_neg (by decide),
                          if_neg (by decide), if_neg (by decide), if_neg (by decide),
                          if_pos rfl]
                        rw [scanU_cons]
                        rw [hexVal_hexDigit
                            ((0xD800 + (c.toNat - 0x10000) / 1024) / 4096 % 16)
                            (by omega),
                          hexVal_hexDigit
                            ((0xD800 + (c.toNat - 0x10000) / 1024) / 256 % 16)
                            (by omega),
                          hexVal_hexDigit
                            ((0xD800 + (c.toNat - 0x10000) / 1024) / 16 % 16)
                            (by omega),
                          hexVal_hexDigit
                            ((0xD800 + (c.toNat - 0x10000) / 1024) % 16)
                            (by omega)]
                        simp only []
                        have hhi : (0xD800 + (c.toNat - 0x10000) / 1024) / 4096 % 16 * 4096 +
                            (0xD800 + (c.toNat - 0x10000) / 1024) / 256 % 16 * 256 +
                            (0xD800 + (c.toNat - 0x10000) / 1024) / 16 % 16 * 16 +
                            (0xD800 + (c.toNat - 0x10000) / 1024) % 16
                            = 0xD800 + (c.toNat - 0x10000) / 1024 := by omega
                        rw [hhi]
                        rw [if_pos (by constructor <;> omega)]
                        rw [scanPair_cons, if_pos ⟨rfl, rfl⟩]
                        rw [hexVal_hexDigit
                            ((0xDC00 + (c.toNat - 0x10000) % 1024) / 4096 % 16)
                            (by omega),
                          hexVal_hexDigit
                            ((0xDC00 + (c.toNat - 0x10000) % 1024) / 256 % 16)
                            (by omega),
                          hexVal_hexDigit
                            ((0xDC00 + (c.toNat - 0x10000) % 1024) / 16 % 16)
                            (by omega),
                          hexVal_hexDigit
                            ((0xDC00 + (c.toNat - 0x10000) % 1024) % 16)
                            (by omega)]
                        simp only []
                        have hlo : (0xDC00 + (c.toNat - 0x10000) % 1024) / 4096 % 16 * 4096 +
                            (0xDC00 + (c.toNat - 0x10000) % 1024) / 256 % 16 * 256 +
                            (0xDC00 + (c.toNat - 0x10000) % 1024) / 16 % 16 * 16 +
                            (0xDC00 + (c.toNat - 0x10000) % 1024) % 16
                            = 0xDC00 + (c.toNat - 0x10000) % 1024 := by omega
                        rw [hlo]
                        rw [if_pos (by constructor <;> omega)]
                        rw [ih]
                        have hfull : (0xD800 + (c.toNat - 0x10000) / 1024 - 0xD800) * 1024 +
                            (0xDC00 + (c.toNat - 0x10000) % 1024 - 0xDC00) + 0x10000
                            = c.toNat := by omega
                        rw [hfull, Char.ofNat_toNat]
                        rfl

/-- A digit character differs from any non-digit character. -/
theorem digit_ne (c x : Char) (h : c.isDigit = true) (hx : x.isDigit = false) :
    c ≠ x := by
  intro he
  rw [he] at h
  rw [hx] at h
  exact absurd h (by simp)

/-- A digit character is not JSON whitespace. -/
theorem digit_not_ws (c : Char) (h : c.isDigit = true) : isJsonWs c = false := by
  cases hb : isJsonWs c
  · rfl
  · exfalso
    rw [isJsonWs] at hb
    simp only [Bool.or_eq_true, decide_eq_true_eq] at hb
    rcases hb with ((rfl | rfl) | rfl) | rfl <;> exact absurd h (by decide)

/-- Every serialized value starts with a character that is neither
whitespace nor `']'`. -/
theorem ser_shape : ∀ v : Json, ∃ c tl, ser v = c :: tl ∧ isJsonWs c = false ∧ c ≠ ']' := by
  intro v
  cases v with
  | null => exact ⟨'n', _, rfl, by decide, by decide⟩
  | bool b =>
    cases b
    · exact ⟨'f', _, rfl, by decide, by decide⟩
    · exact ⟨'t', _, rfl, by decide, by decide⟩
  | num n =>
    show ∃ c tl, intChars n = c :: tl ∧ isJsonWs c = false ∧ c ≠ ']'
    rw [intChars]
    by_cases hn : n < 0
    · rw [if_pos hn]
      exact ⟨'-', _, rfl, by decide, by decide⟩
    · rw [if_neg hn]
      obtain ⟨d, tl, hshape⟩ := natCharsAux_shape (n.natAbs + 1) n.natAbs [] (by omega)
      have hmem : d ∈ natChars n.natAbs := by
        rw [natChars, hshape]
        simp
      have hd : d.isDigit = true := natChars_digits n.natAbs d hmem
      refine ⟨d, tl, ?_, digit_not_ws d hd, digit_ne d ']' hd (by decide)⟩
      rw [natChars]
      exact hshape
  | str s => exact ⟨'"', _, rfl, by decide, by decide⟩
  | arr items => exact ⟨'[', _, rfl, by decide, by decide⟩
  | obj ms => exact ⟨'\x7b', _, rfl, by decide, by decide⟩

/-- The parser ignores leading whitespace. -/
theorem parseVal_ws (n : Nat) (ws cs : List Char) (h : ∀ c ∈ ws, isJsonWs c = true) :
    parseVal (n + 1) (ws ++ cs) = parseVal (n + 1) cs := by
  rw [parseVal.eq_2, parseVal.eq_2, skipWs_append_ws ws cs h]

/-- Every serialized value is nonempty. -/
theorem ser_len (v : Json) : 1 ≤ (ser v).length := by
  obtain ⟨c, tl, h, _, _⟩ := ser_shape v
  rw [h]
  simp

set_option maxHeartbeats 2000000 in
/-- Main round-trip induction on fuel: parsing a serialized value (with any
leading whitespace and any non-digit-starting continuation) succeeds and
consumes exactly the serialization; the object-member and array-item parts
handle the `'\x7b'`/`'['`-headed re-entry of the parser on member and item
tails. -/
theorem parse_ser_aux : ∀ f : Nat,
    (∀ (v : Json) (ws rest : List Char),
      (∀ c ∈ ws, isJsonWs c = true) → headIsDigit rest = false →
      (ws ++ ser v ++ rest).length ≤ f →
      parseVal f (ws ++ ser v ++ rest) = some (v, rest))
    ∧ (∀ (ms : List (String × Json)) (ws rest : List Char),
      (∀ c ∈ ws, isJsonWs c = true) →
      ('\x7b' :: (ws ++ serMembers ms ++ '\x7d' :: rest)).length ≤ f →
      parseVal f ('\x7b' :: (ws ++ serMembers ms ++ '\x7d' :: rest))
        = some (Json.obj ms, rest))
    ∧ (∀ (vs : List Json) (ws rest : List Char),
      (∀ c ∈ ws, isJsonWs c = true) →
      ('[' :: (ws ++ serItems vs ++ ']' :: rest)).length ≤ f →
      parseVal f ('[' :: (ws ++ serItems vs ++ ']' :: rest))
        = some (Json.arr vs, rest)) := by
  intro f
  induction f with
  | zero =>
    refine ⟨?_, ?_, ?_⟩
    · intro v ws rest _ _ hlen
      have := ser_len v
      simp only [List.length_append] at hlen
      omega
    · intro ms ws rest _ hlen
      rw [List.length_cons] at hlen
      omega
    · intro vs ws rest _ hlen
      rw [List.length_cons] at hlen
      omega
  | succ f ih =>
    obtain ⟨ihP, ihQ, ihR⟩ := ih
    have hQ : ∀ (ms : List (String × Json)) (ws rest : List Char),
        (∀ c ∈ ws, isJsonWs c = true) →
        ('\x7b' :: (ws ++ serMembers ms ++ '\x7d' :: rest)).length ≤ f + 1 →
        parseVal (f + 1) ('\x7b' :: (ws ++ serMembers ms ++ '\x7d' :: rest))
          = some (Json.obj ms, rest) := by
      intro ms ws rest hws hlen
      rw [parseVal.eq_2]
      rw [skipWs_not_ws _ _ (by decide)]
      simp only []
      rw [if_neg (by decide), if_neg (by decide), if_neg (by decide),
        if_neg (by decide), if_neg (by decide), if_neg (by decide),
        if_pos (by trivial)]
      rcases ms with _ | ⟨⟨k, v⟩, ms'⟩
      · rw [serMembers.eq_1]
        simp only [List.append_nil]
        rw [skipWs_append_ws _ _ hws, skipWs_not_ws _ _ (by decide)]
        rfl
      · rcases ms' with _ | ⟨m2, ms2⟩
        · have hlen2 : ([' '] ++ ser v ++ '\x7d' :: rest).length ≤ f := by
            rw [show serMembers [(k, v)] = serStr k ++ ':' :: ' ' :: ser v from rfl,
              serStr] at hlen
            simp only [List.length_cons, List.length_append, List.length_nil] at hlen ⊢
            omega
          rw [show serMembers [(k, v)] = serStr k ++ ':' :: ' ' :: ser v from rfl,
            serStr]
          simp only [List.cons_append, List.append_assoc, List.nil_append,
            List.singleton_append]
          rw [skipWs_append_ws _ _ hws, skipWs_not_ws _ _ (by decide)]
          simp only []
          rw [scanString_esc]
          simp only []
          rw [skipWs_not_ws _ _ (by decide)]
          simp only []
          have hv := ihP v [' '] ('\x7d' :: rest)
            (by intro c hc; simp at hc; subst hc; decide)
            (by rw [headIsDigit]; decide) hlen2
          simp only [List.singleton_append, List.cons_append, List.append_assoc,
            List.nil_append] at hv
          rw [hv]
          simp only []
          rw [skipWs_not_ws _ _ (by decide)]
          rfl
        · have hsl := ser_len v
          have hlen2 : ([' '] ++ ser v ++
              ',' :: ' ' :: (serMembers (m2 :: ms2) ++ '\x7d' :: rest)).length ≤ f := by
            rw [show serMembers ((k, v) :: m2 :: ms2)
                = serStr k ++ ':' :: ' ' :: ser v ++
                  ',' :: ' ' :: serMembers (m2 :: ms2) from rfl,
              serStr] at hlen
            simp only [List.length_cons, List.length_append, List.length_nil] at hlen ⊢
            omega
          have hlen3 : ('\x7b' :: ([' '] ++ serMembers (m2 :: ms2) ++
              '\x7d' :: rest)).length ≤ f := by
            rw [show serMembers ((k, v) :: m2 :: ms2)
                = serStr k ++ ':' :: ' ' :: ser v ++
                  ',' :: ' ' :: serMembers (m2 :: ms2) from rfl,
              serStr] at hlen
            simp only [List.length_cons, List.length_append, List.length_nil] at hlen ⊢
            omega
          rw [show serMembers ((k, v) :: m2 :: ms2)
              = serStr k ++ ':' :: ' ' :: ser v ++
                ',' :: ' ' :: serMembers (m2 :: ms2) from rfl,
            serStr]
          simp only [List.cons_append, List.append_assoc, List.nil_append,
            List.singleton_append]
          rw [skipWs_append_ws _ _ hws, skipWs_not_ws _ _ (by decide)]
          simp only []
          rw [scanString_esc]
          simp only []
          rw [skipWs_not_ws _ _ (by decide)]
          simp only []
          have hv := ihP v [' ']
            (',' :: ' ' :: (serMembers (m2 :: ms2) ++ '\x7d' :: rest))
            (by intro c hc; simp at hc; subst hc; decide)
            (by rw [headIsDigit]; decide) hlen2
          simp only [List.singleton_append, List.cons_append, List.append_assoc,
            List.nil_append] at hv
          rw [hv]
          simp only []
          rw [skipWs_not_ws _ _ (by decide)]
          simp only []
          have hq := ihQ (m2 :: ms2) [' '] rest
            (by intro c hc; simp at hc; subst hc; decide) hlen3
          simp only [List.singleton_append, List.cons_append, List.append_assoc,
            List.nil_append] at hq
          rw [hq]
    have hR : ∀ (vs : List Json) (ws rest : List Char),
        (∀ c ∈ ws, isJsonWs c = true) →
        ('[' :: (ws ++ serItems vs ++ ']' :: rest)).length ≤ f + 1 →
        parseVal (f + 1) ('[' :: (ws ++ serItems vs ++ ']' :: rest))
          = some (Json.arr vs, rest) := by
      intro vs ws rest hws hlen
      rw [parseVal.eq_2]
      rw [skipWs_not_ws _ _ (by decide)]
      simp only []
      rw [if_neg (by decide), if_neg (by decide), if_neg (by decide),
        if_neg (by decide), if_neg (by decide), if_neg (by decide),
        if_neg (by decide), if_pos (by trivial)]
      rcases vs with _ | ⟨v, vs'⟩
      · rw [serItems.eq_1]
        simp only [List.append_nil]
        rw [skipWs_append_ws _ _ hws, skipWs_not_ws _ _ (by decide)]
        rfl
      · obtain ⟨c0, tl0, hser0, hnws0, hne0⟩ := ser_shape v
        rcases vs' with _ | ⟨v2, vs2⟩
        · have hlen2 : (ws ++ ser v ++ ']' :: rest).length ≤ f := by
            rw [show serItems [v] = ser v from rfl] at hlen
            simp only [List.length_cons, List.length_append, List.length_nil] at hlen ⊢
            omega
          have hv := ihP v ws (']' :: rest) hws (by rw [headIsDigit]; decide) hlen2
          rw [hser0] at hv
          simp only [List.cons_append, List.append_assoc, List.nil_append] at hv
          rw [show serItems [v] = ser v from rfl, hser0]
          simp only [List.cons_append, List.append_assoc, List.nil_append]
          rw [skipWs_append_ws _ _ hws, skipWs_not_ws _ _ hnws0]
          split
          · rename_i r heq
            exfalso
            injection heq with h1 _
            exact hne0 h1
          · rw [hv]
            simp only []
            rw [skipWs_not_ws _ _ (by decide)]
            rfl
        · have hsl := ser_len v
          have hlen2 : (ws ++ ser v ++
              ',' :: ' ' :: (serItems (v2 :: vs2) ++ ']' :: rest)).length ≤ f := by
            rw [show serItems (v :: v2 :: vs2)
                = ser v ++ ',' :: ' ' :: serItems (v2 :: vs2) from rfl] at hlen
            simp only [List.length_cons, List.length_append, List.length_nil] at hlen ⊢
            omega
          have hlen3 : ('[' :: ([' '] ++ serItems (v2 :: vs2) ++ ']' :: rest)).length
              ≤ f := by
            rw [show serItems (v :: v2 :: vs2)
                = ser v ++ ',' :: ' ' :: serItems (v2 :: vs2) from rfl] at hlen
            simp only [List.length_cons, List.length_append, List.length_nil] at hlen ⊢
            omega
          have hv := ihP v ws
            (',' :: ' ' :: (serItems (v2 :: vs2) ++ ']' :: rest)) hws
            (by rw [headIsDigit]; decide) hlen2
          rw [hser0] at hv
          simp only [List.cons_append, List.append_assoc, List.nil_append] at hv
          rw [show serItems (v :: v2 :: vs2)
              = ser v ++ ',' :: ' ' :: serItems (v2 :: vs2) from rfl, hser0]
          simp only [List.cons_append, List.append_assoc, List.nil_append]
          rw [skipWs_append_ws _ _ hws, skipWs_not_ws _ _ hnws0]
          split
          · rename_i r heq
            exfalso
            injection heq with h1 _
            exact hne0 h1
          · rw [hv]
            simp only []
            rw [skipWs_not_ws _ _ (by decide)]
            simp only []
            have hr := ihR (v2 :: vs2) [' '] rest
              (by intro c hc; simp at hc; subst hc; decide) hlen3
            simp only [List.singleton_append, List.cons_append, List.append_assoc,
              List.nil_append] at hr
            rw [hr]
    have hP : ∀ (v : Json) (ws rest : List Char),
        (∀ c ∈ ws, isJsonWs c = true) → headIsDigit rest = false →
        (ws ++ ser v ++ rest).length ≤ f + 1 →
        parseVal (f + 1) (ws ++ ser v ++ rest) = some (v, rest) := by
      intro v ws rest hws hdig hlen
      cases v with
      | null =>
        rw [show ser Json.null = ['n', 'u', 'l', 'l'] from rfl]
        simp only [List.cons_append, List.append_assoc, List.nil_append]
        rw [parseVal.eq_2, skipWs_append_ws _ _ hws, skipWs_not_ws _ _ (by decide)]
        simp only []
        rw [if_pos (by trivial)]
      | bool b =>
        cases b
        · rw [show ser (Json.bool false) = ['f', 'a', 'l', 's', 'e'] from rfl]
          simp only [List.cons_append, List.append_assoc, List.nil_append]
          rw [parseVal.eq_2, skipWs_append_ws _ _ hws, skipWs_not_ws _ _ (by decide)]
          simp only []
          rw [if_neg (by decide), if_neg (by decide), if_pos (by trivial)]
        · rw [show ser (Json.bool true) = ['t', 'r', 'u', 'e'] from rfl]
          simp only [List.cons_append, List.append_assoc, List.nil_append]
          rw [parseVal.eq_2, skipWs_append_ws _ _ hws, skipWs_not_ws _ _ (by decide)]
          simp only []
          rw [if_neg (by decide), if_pos (by trivial)]
      | num n =>
        rw [show ser (Json.num n) = intChars n from rfl, intChars]
        by_cases hn : n < 0
        · rw [if_pos hn]
          simp only [List.cons_append, List.append_assoc, List.nil_append]
          rw [parseVal.eq_2, skipWs_append_ws _ _ hws, skipWs_not_ws _ _ (by decide)]
          simp only []
          rw [if_neg (by decide), if_neg (by decide), if_neg (by decide),
            if_neg (by decide), if_pos (by trivial)]
          rw [scanNat_natChars _ _ hdig]
          simp only []
          have he : (-(n.natAbs : Int)) = n := by omega
          rw [he]
        · rw [if_neg hn]
          obtain ⟨d, tl, hshape⟩ := natCharsAux_shape (n.natAbs + 1) n.natAbs [] (by omega)
          have hnat : natChars n.natAbs = d :: tl := by
            rw [natChars]
            exact hshape
          have hd : d.isDigit = true := natChars_digits n.natAbs d (by rw [hnat]; simp)
          rw [hnat]
          simp only [List.cons_append, List.append_assoc, List.nil_append]
          rw [parseVal.eq_2, skipWs_append_ws _ _ hws,
            skipWs_not_ws _ _ (digit_not_ws d hd)]
          simp only []
          rw [if_neg (digit_ne d 'n' hd (by decide)),
            if_neg (digit_ne d 't' hd (by decide)),
            if_neg (digit_ne d 'f' hd (by decide)),
            if_neg (digit_ne d '"' hd (by decide)),
            if_neg (digit_ne d '-' hd (by decide)), if_pos hd]
          have harg : d :: (tl ++ rest) = natChars n.natAbs ++ rest := by
            rw [hnat]
            rfl
          rw [harg, scanNat_natChars _ _ hdig]
          simp only []
          have he : ((n.natAbs : Int)) = n := by omega
          rw [he]
      | str s =>
        rw [show ser (Json.str s) = serStr s from rfl, serStr]
        simp only [List.cons_append, List.append_assoc, List.nil_append,
          List.singleton_append]
        rw [parseVal.eq_2, skipWs_append_ws _ _ hws, skipWs_not_ws _ _ (by decide)]
        simp only []
        rw [if_neg (by decide), if_neg (by decide), if_neg (by decide),
          if_pos (by trivial)]
        rw [scanString_esc]
        rfl
      | arr items =>
        rw [show ser (Json.arr items) = '[' :: serItems items ++ [']'] from rfl]
        simp only [List.cons_append, List.append_assoc, List.nil_append,
          List.singleton_append]
        rw [parseVal_ws f ws ('[' :: (serItems items ++ ']' :: rest)) hws]
        have h := hR items [] rest (by simp)
          (by
            rw [show ser (Json.arr items) = '[' :: serItems items ++ [']'] from rfl] at hlen
            simp only [List.length_cons, List.length_append, List.length_nil,
              List.nil_append] at hlen ⊢
            omega)
        simp only [List.nil_append] at h
        exact h
      | obj ms =>
        rw [show ser (Json.obj ms) = '\x7b' :: serMembers ms ++ ['\x7d'] from rfl]
        simp only [List.cons_append, List.append_assoc, List.nil_append,
          List.singleton_append]
        rw [parseVal_ws f ws ('\x7b' :: (serMembers ms ++ '\x7d' :: rest)) hws]
        have h := hQ ms [] rest (by simp)
          (by
            rw [show ser (Json.obj ms) = '\x7b' :: serMembers ms ++ ['\x7d'] from rfl] at hlen
            simp only [List.length_cons, List.length_append, List.length_nil,
              List.nil_append] at hlen ⊢
            omega)
        simp only [List.nil_append] at h
        exact h
    exact ⟨hP, hQ, hR⟩

/-- Parsing a whole serialized JSON text yields the original value. -/
theorem parse_ser (v : Json) : parseJsonText (ser v) = some v := by
  have h := (parse_ser_aux ((ser v).length + 1)).1 v [] [] (by simp) rfl
    (by simp)
  simp only [List.nil_append, List.append_nil] at h
  rw [parseJsonText, h]
  rfl

/-- C1: for every JSON-representable configuration object (the empty object
included), the built URL is exactly the template
`https://server.smithery.ai/<qualifiedName>/ws?config=` followed by the
base64 segment, and decoding that segment as standard padded base64 and
parsing the resulting bytes (UTF-8 text) as JSON yields exactly the
original configuration object — the round-trip law. -/
theorem websocket_url_roundtrip :
    ∀ (qualifiedName : String) (config : List (String × Json)),
      create_websocket_url qualifiedName config
        = "https://server.smithery.ai/" ++ qualifiedName ++ "/ws?config="
          ++ b64encode (utf8Encode (json_dumps (Json.obj config)).data)
      ∧ decode_config_segment
          (b64encode (utf8Encode (json_dumps (Json.obj config)).data))
        = some (Json.obj config) := by
  intro qn config
  constructor
  · rfl
  · have h1 := b64_roundtrip (utf8Encode (ser (Json.obj config)))
      (utf8Encode_lt (ser (Json.obj config)))
    have h2 := utf8_roundtrip (ser (Json.obj config))
    have h3 := parse_ser (Json.obj config)
    show (do
      let bytes ← b64decodeCh (b64encode (utf8Encode (ser (Json.obj config)))).data
      let chars ← utf8Decode bytes
      parseJsonText chars) = some (Json.obj config)
    rw [show (b64encode (utf8Encode (ser (Json.obj config)))).data
        = b64encodeCh (utf8Encode (ser (Json.obj config))) from rfl]
    rw [h1]
    simp [h2, h3]
